import Mathlib

set_option maxRecDepth 40000

/-!
Verification of the anime-ranker core: the similarity scorer
(src/rankers/string-comp.ts), the rank-resolution match selection
(src/rankers/anilist.ts, Anilist.getRanking), and the persistent store with
its synchronization diff (src/database/database.ts, src/database/media-schema.ts).

The store is modelled as three lists mirroring the SQLite tables (Media,
Ranks, Deleted), with the operations translated statement-by-statement from
the Database class.  SQL NULL values are modelled by Option, and the
`BEGIN TRANSACTION … COMMIT` wrappers are modelled by discarding the
uncommitted intermediate state when an operation inside the transaction
throws (the code never reaches `COMMIT` in that case).
-/

namespace AnimeRanker

/-! ## Data model (src/providers/provider.ts, src/rankers/ranker.ts) -/

/-- All supported providers (`providers = ["Hulu", "Netflix"] as const`). -/
inductive Providers
  | Hulu
  | Netflix
deriving DecidableEq, Repr

/-- The runtime name of a provider, as stored in the `provider` TEXT column. -/
def Providers.toName : Providers → String
  | .Hulu => "Hulu"
  | .Netflix => "Netflix"

/-- Decoding of the `provider` column (`z.enum(providers).parse`); fails on any
other string. -/
def parseProvider (s : String) : Option Providers :=
  if s = "Hulu" then some .Hulu
  else if s = "Netflix" then some .Netflix
  else none

/-- Acceptable types of media (`mediaType = ["TV", "MOVIE", "MANGA"] as const`). -/
inductive MediaType
  | TV
  | MOVIE
  | MANGA
deriving DecidableEq, Repr

/-! ## Similarity scorer (src/rankers/string-comp.ts)

`titleSimilarity` compares `comp.levenshtein.similarity(title1, title2)`
against a fixed threshold.  The `similarity` function comes from the
`string-comparison` npm dependency, whose source is not part of this
repository. -/

/-- Result type of `titleSimilarity` (the TS union `"similar" | "not similar"`). -/
inductive Similarity
  | similar
  | notSimilar
deriving DecidableEq, Repr

/-- Modelled from the spec: the `string-comparison` dependency's
`comp.levenshtein.similarity`, which is not part of this repository.  Per
spec §4.1 it is "a normalized edit-distance similarity in [0,1]", per §2 it is
"tolerant of punctuation/case/whitespace drift", and the repository's own test
suite (src/rankers/string-comp.test.ts) pins it as case-insensitive (e.g.
"Belle" vs "BELLE" must be similar).  We therefore model it as
`1 - d / max(|a|, |b|)` where `d` is the Levenshtein distance between the
case-folded character sequences, with both-empty strings maximally similar. -/
def levenshteinSimilarity (a b : String) : ℚ :=
  if max a.length b.length = 0 then 1
  else
    1 - ((levenshtein Levenshtein.defaultCost
          (a.toList.map Char.toLower) (b.toList.map Char.toLower) : ℕ) : ℚ) /
      (max a.length b.length)

/-- Threshold at which two strings are similar enough
(`const THRESHOLD = 0.85`, src/rankers/string-comp.ts). -/
def THRESHOLD : ℚ := 85 / 100

/-- Determine how similar two titles are to each other
(`titleSimilarity`, src/rankers/string-comp.ts). -/
def titleSimilarity (title1 title2 : String) : Similarity :=
  if levenshteinSimilarity title1 title2 ≥ THRESHOLD then .similar
  else .notSimilar

/-! ## Rank-resolution match selection (src/rankers/anilist.ts) -/

/-- Metadata used to match an anime to a search result
(the `Metadata` type of src/rankers/anilist.ts). -/
structure Metadata where
  format : Option String
  allTitles : List String
  titleSynonyms : List String
deriving DecidableEq, Repr

/-- The predicate `providerTitleIsIn` of `Anilist.getRanking`: some title in
the candidate list is similar to the cleaned provider title. -/
def providerTitleIsIn (cleanedTitle : String) (possibleTitles : List String) : Bool :=
  possibleTitles.any (fun anilistTitle =>
    titleSimilarity anilistTitle cleanedTitle == .similar)

/-- Match selection of `Anilist.getRanking` on the results that survived the
format filter (and, for manga, the format reordering): the first candidate
whose official titles contain a similar string, otherwise the first candidate
whose synonyms do, otherwise no match.  The rank payload is left abstract
(the code stores `[Rank, Metadata]` pairs and returns `bestMatch[0]`). -/
def getRanking {α : Type} (cleanedTitle : String) (results : List (α × Metadata)) :
    Option α :=
  (((results.find? (fun c => providerTitleIsIn cleanedTitle c.2.allTitles)).orElse
      (fun _ =>
        results.find? (fun c => providerTitleIsIn cleanedTitle c.2.titleSynonyms))).map
    Prod.fst)

/-! ## Persistent store rows (src/database/media-schema.ts) -/

/-- One row of the `Media` table: catalog entry columns plus the nullable
`rankId` foreign key (`createMediaTable`). -/
structure MediaRow where
  providerTitle : String
  type : MediaType
  providerURL : String
  provider : Providers
  rankId : Option String
deriving DecidableEq, Repr

/-- One row of the `Ranks` table, with the columns the `INSERT INTO Ranks`
statement of `Database.insert` writes.  Nullable columns are Options; dates
are stored as ISO strings, genres comma-joined, as in the storage layout. -/
structure RankRow where
  rankId : String
  rankerTitle : String
  rankerURL : String
  score : Option Int
  ranker : String
  lastUpdated : String
  poster : String
  genres : String
  startDate : Option String
  description : Option String
deriving DecidableEq, Repr

/-- A `MaybeRankedMedia` entry handed to `Database.insert`: the catalog
fields are required, every rank field is individually optional
(`Media & ZodPartial<Rank>`). -/
structure MaybeRankedMedia where
  providerTitle : String
  type : MediaType
  providerURL : String
  provider : Providers
  rankId : Option String
  rankerTitle : Option String
  rankerURL : Option String
  score : Option Int
  ranker : Option String
  lastUpdated : Option String
  poster : Option String
  genres : Option String
  startDate : Option String
  description : Option String
deriving DecidableEq, Repr

/-- The `MediaPrimaryKey`: `(provider, providerTitle)`. -/
structure MediaPrimaryKey where
  provider : Providers
  providerTitle : String
deriving DecidableEq, Repr

/-- The `rankSchema.safeEncode(entry)` step of `Database.insert`: encoding
succeeds exactly when every required rank field is present (`score`,
`startDate` and `description` stay optional in `Rank`). -/
def encodeRank (e : MaybeRankedMedia) : Option RankRow :=
  match e.rankId, e.rankerTitle, e.rankerURL, e.ranker, e.lastUpdated,
      e.poster, e.genres with
  | some rankId, some rankerTitle, some rankerURL, some ranker,
      some lastUpdated, some poster, some genres =>
    some ⟨rankId, rankerTitle, rankerURL, e.score, ranker, lastUpdated,
      poster, genres, e.startDate, e.description⟩
  | _, _, _, _, _, _, _ => none

/-- The `mediaAndRankIdSchema.encode(entry)` step: the Media row written for
an entry. -/
def mediaRowOf (e : MaybeRankedMedia) : MediaRow :=
  ⟨e.providerTitle, e.type, e.providerURL, e.provider, e.rankId⟩

/-- The database state: the live `Media` table, the shared `Ranks` table and
the `Deleted` archive table.

Modelled from the spec: `createDeletedTable` is not under src/ (database.ts
only imports it), so the archive is modelled per §3 as a table of
snapshot copies with the same shape as `Media`, kept for audit. -/
structure DB where
  media : List MediaRow
  ranks : List RankRow
  deleted : List MediaRow
deriving DecidableEq, Repr

/-- The empty database created by the `Database` constructor. -/
def DB.empty : DB := ⟨[], [], []⟩

/-- Whether a Media row matches a primary key. -/
def keyMatches (k : MediaPrimaryKey) (m : MediaRow) : Bool :=
  m.provider == k.provider && m.providerTitle == k.providerTitle

/-- The primary key of a Media row. -/
def MediaRow.key (m : MediaRow) : MediaPrimaryKey := ⟨m.provider, m.providerTitle⟩

/-- The primary key of an entry to insert. -/
def MaybeRankedMedia.key (e : MaybeRankedMedia) : MediaPrimaryKey :=
  ⟨e.provider, e.providerTitle⟩

/-- The live keys of the database. -/
def DB.liveKeys (db : DB) : List MediaPrimaryKey := db.media.map MediaRow.key

/-- A key identifies a live catalog entry. -/
def LiveKey (k : MediaPrimaryKey) (db : DB) : Prop :=
  ∃ m ∈ db.media, keyMatches k m = true

instance (k : MediaPrimaryKey) (db : DB) : Decidable (LiveKey k db) :=
  List.decidableBEx _ db.media

/-! ## Store operations (src/database/database.ts) -/

/-- The `INSERT INTO Ranks … ON CONFLICT ("rankId") DO UPDATE SET score,
lastUpdated` statement: on a `rankId` conflict only `score` and `lastUpdated`
are refreshed from the excluded row; otherwise the row is appended. -/
def upsertRank (r : RankRow) (ranks : List RankRow) : List RankRow :=
  if ranks.any (fun q => q.rankId == r.rankId) then
    ranks.map (fun q =>
      if q.rankId == r.rankId then
        { q with score := r.score, lastUpdated := r.lastUpdated }
      else q)
  else ranks ++ [r]

/-- The `REFERENCES Ranks ("rankId")` foreign-key check on `Media.rankId`
(node:sqlite enables foreign-key constraints by default): a non-NULL `rankId`
must exist in `Ranks`. -/
def fkViolation (rankId : Option String) (ranks : List RankRow) : Bool :=
  match rankId with
  | none => false
  | some rid => !(ranks.any (fun r => r.rankId == rid))

/-- The first half of `Database.insert`: when `rankSchema.safeEncode` succeeds
the Ranks upsert statement runs, otherwise the Ranks table is untouched. -/
def ranksAfterUpsert (e : MaybeRankedMedia) (ranks : List RankRow) : List RankRow :=
  match encodeRank e with
  | some r => upsertRank r ranks
  | none => ranks

/-- Modelled from the spec: the Ranks table's score-range constraint.  The
media-schema revision that database.ts imports (the one with the
`poster`/`genres`/`startDate`/`description` columns and `createDeletedTable`)
is not under src/.  Spec §3 requires `Rank.score`, if present, to be within
`[0, 100]`, §7 makes an invalid score range an integrity violation that is
fatal for the operation, and database.test.ts pins inserts with score `-1`
or `101` throwing.  A NULL score passes the check, as a SQL CHECK on a NULL
value does. -/
def scoreValid : Option Int → Bool
  | none => true
  | some s => decide (0 ≤ s) && decide (s ≤ 100)

/-- Whether the `INSERT INTO Ranks … ON CONFLICT DO UPDATE` statement itself
throws: both the plain insert and the conflict update write the encoded
entry's `score`, so the statement violates the score-range constraint exactly
when that score is out of range.  The throw happens before any row is
written. -/
def rankInsertThrows (e : MaybeRankedMedia) : Bool :=
  match encodeRank e with
  | some r => !(scoreValid r.score)
  | none => false

/-- The `Database.insert` operation.  The Ranks upsert runs first: if its
statement throws (out-of-range score) nothing is written at all; otherwise
the upsert persists (being a separately autocommitted statement it survives
even when the Media insert then fails), and the Media insert fails on a
primary-key conflict on `(provider, providerTitle)` or on a foreign-key
violation.  Returns the resulting state and whether the insert succeeded. -/
def insert (e : MaybeRankedMedia) (db : DB) : DB × Bool :=
  if rankInsertThrows e then
    (db, false)
  else if db.media.any (keyMatches e.key) then
    ({ db with ranks := ranksAfterUpsert e db.ranks }, false)
  else if fkViolation e.rankId (ranksAfterUpsert e db.ranks) then
    ({ db with ranks := ranksAfterUpsert e db.ranks }, false)
  else
    ({ db with
        ranks := ranksAfterUpsert e db.ranks
        media := db.media ++ [mediaRowOf e] }, true)

/-- The loop body of `Database.insertMany` inside the transaction: entries are
inserted in order and the first failure aborts the loop. -/
def insertManyGo (es : List MaybeRankedMedia) (db : DB) : DB × Bool :=
  match es with
  | [] => (db, true)
  | e :: rest =>
    match insert e db with
    | (db', true) => insertManyGo rest db'
    | (db', false) => (db', false)

/-- The `Database.insertMany` operation: `BEGIN TRANSACTION`, the insert loop,
`COMMIT`.  When an insert throws, `COMMIT` is never reached, so the
transaction's uncommitted changes are discarded and the error propagates
(flag `false`). -/
def insertMany (es : List MaybeRankedMedia) (db : DB) : DB × Bool :=
  match insertManyGo es db with
  | (db', true) => (db', true)
  | (_, false) => (db, false)

/-- The `Database.delete` operation: `INSERT INTO Deleted SELECT * FROM Media
WHERE …`; when that inserted zero rows the media is not in the table and an
error is thrown, otherwise the matching rows are removed from `Media`. -/
def dbDelete (k : MediaPrimaryKey) (db : DB) : Except Unit DB :=
  let moved := db.media.filter (keyMatches k)
  if moved.isEmpty then
    .error ()
  else
    .ok { db with
      media := db.media.filter (fun m => !(keyMatches k m)),
      deleted := db.deleted ++ moved }

/-- The loop of `Database.deleteMany`: each key is attempted independently,
failed keys are collected, and the transaction commits regardless.  Returns
the resulting state and the collected failed keys (the aggregate error is
thrown exactly when that list is nonempty). -/
def deleteMany (ks : List MediaPrimaryKey) (db : DB) : DB × List MediaPrimaryKey :=
  match ks with
  | [] => (db, [])
  | k :: rest =>
    match dbDelete k db with
    | .ok db' => deleteMany rest db'
    | .error _ =>
      let (db'', failed) := deleteMany rest db
      (db'', k :: failed)

/-! ## Query (src/database/database.ts, `Database.getAll`) -/

/-- The `LEFT OUTER JOIN Ranks USING ("rankId")` step for one Media row: a
NULL `rankId` joins no Ranks row, otherwise the Ranks row with that key. -/
def joinRank (db : DB) (m : MediaRow) : MediaRow × Option RankRow :=
  (m, m.rankId.bind (fun rid => db.ranks.find? (fun r => r.rankId == rid)))

/-- The score a joined row sorts by (`Ranks."score"`, NULL when the entry has
no rank or its rank has a NULL score). -/
def rowScore (j : MediaRow × Option RankRow) : Option Int :=
  j.2.bind (fun r => r.score)

/-- The tie-break of the `ORDER BY` clause:
`Media."providerTitle" ASC, Media."provider" ASC` (TEXT columns compare
bytewise, which agrees with the codepoint order used here). -/
def tieLe (a b : MediaRow × Option RankRow) : Bool :=
  if a.1.providerTitle = b.1.providerTitle then
    decide (a.1.provider.toName ≤ b.1.provider.toName)
  else
    decide (a.1.providerTitle < b.1.providerTitle)

/-- The full `ORDER BY Ranks."score" DESC NULLS LAST, Media."providerTitle"
ASC, Media."provider" ASC` comparison, as a total boolean order. -/
def sqlLe (a b : MediaRow × Option RankRow) : Bool :=
  match rowScore a, rowScore b with
  | some sa, some sb => if sa = sb then tieLe a b else decide (sb < sa)
  | some _, none => true
  | none, some _ => false
  | none, none => tieLe a b

/-- The `Database.getAll()` query with no filter: every Media row left-joined
with its Ranks row, ordered by the `ORDER BY` clause. -/
def getAll (db : DB) : List (MediaRow × Option RankRow) :=
  (db.media.map (joinRank db)).insertionSort (fun a b => sqlLe a b = true)

/-! ## Synchronization diff (src/database/database.ts, `Database.mediaDiff`) -/

/-- The identifier string used for set membership:
`` `${entry.provider}:${entry.providerTitle}` ``. -/
def keyString (k : MediaPrimaryKey) : String :=
  k.provider.toName ++ ":" ++ k.providerTitle

/-- Splitting a character list at every colon, as JavaScript's
`key.split(":")` does. -/
def splitColonAux : List Char → List Char → List (List Char)
  | [], acc => [acc.reverse]
  | c :: rest, acc =>
    if c = ':' then acc.reverse :: splitColonAux rest []
    else splitColonAux rest (c :: acc)

/-- JavaScript's `key.split(":")` (on one-character separators it splits at
every occurrence; `String.splitOn` agrees but is modelled character-wise so
that proofs can evaluate it). -/
def splitColon (s : String) : List String :=
  (splitColonAux s.toList []).map (fun cs => ⟨cs⟩)

/-- The key reconstruction in `mediaDiff`'s `onlyInDatabase` branch:
`const [rawProvider, providerTitle] = key.split(":")` keeps only the first
two fragments, `z.enum(providers).parse(rawProvider)` must succeed, the
scope assertion must hold, and `assert.ok(providerTitle)` rejects an empty
(or missing) title. -/
def parseTitleKey (scope : Option Providers) (s : String) : Option MediaPrimaryKey :=
  let parts := splitColon s
  match parts[0]?, parts[1]? with
  | some rawProvider, some providerTitle =>
    match parseProvider rawProvider with
    | some databaseProvider =>
      if (scope = none ∨ scope = some databaseProvider) ∧ providerTitle ≠ "" then
        some ⟨databaseProvider, providerTitle⟩
      else none
    | none => none
  | _, _ => none

/-- The boolean tie order used by the `ORDER BY "providerTitle" ASC,
"provider" ASC` clause of the `#titles` query. -/
def titleRowLe (a b : MediaRow) : Bool :=
  if a.providerTitle = b.providerTitle then
    decide (a.provider.toName ≤ b.provider.toName)
  else
    decide (a.providerTitle < b.providerTitle)

/-- The private `Database.#titles(provider?)` query: the identifier strings of
all live Media rows, optionally restricted to one provider, collected into a
Set (duplicates collapse, first occurrence kept; the SELECT orders rows by
title then provider). -/
def titles (scope : Option Providers) (db : DB) : List String :=
  let rows : List MediaRow :=
    match scope with
    | some p => db.media.filter (fun m => m.provider == p)
    | none => db.media
  (((rows.insertionSort (fun a b => titleRowLe a b = true)).map
    (fun m => keyString m.key)).eraseDups)

/-- Result of `Database.mediaDiff`. -/
structure DiffResult where
  inBoth : List MediaPrimaryKey
  onlyInDatabase : List MediaPrimaryKey
  notInDatabase : List MediaPrimaryKey
deriving DecidableEq, Repr

/-- The JavaScript `Map` built by `mediaDiff` (`new Map(medias.map(...))`):
for each identifier string the last entry with that key wins. -/
def lookupLast (medias : List MediaPrimaryKey) (s : String) : Option MediaPrimaryKey :=
  (medias.filter (fun m => keyString m == s)).getLast?

/-- The `Database.mediaDiff(medias, provider?)` operation, on the primary-key
fields of the request entries.  `inBoth` and `notInDatabase` map identifier
strings back through the request Map; `onlyInDatabase` reconstructs keys from
the identifier strings with `parseTitleKey`.  A failing runtime assertion or
enum parse is modelled as `none`. -/
def mediaDiff (medias : List MediaPrimaryKey) (scope : Option Providers) (db : DB) :
    Option DiffResult :=
  let requestKeys := (medias.map keyString).eraseDups
  let databaseKeys := titles scope db
  let inBothKeys := requestKeys.filter (fun s => databaseKeys.contains s)
  let notKeys := requestKeys.filter (fun s => !(databaseKeys.contains s))
  let onlyKeys := databaseKeys.filter (fun s => !(requestKeys.contains s))
  match inBothKeys.mapM (lookupLast medias), notKeys.mapM (lookupLast medias),
      onlyKeys.mapM (parseTitleKey scope) with
  | some inBoth, some notInDatabase, some onlyInDatabase =>
    some ⟨inBoth, onlyInDatabase, notInDatabase⟩
  | _, _, _ => none

/-! ## Helper lemmas -/

theorem lev_nil_left (ys : List Char) :
    levenshtein Levenshtein.defaultCost ([] : List Char) ys = ys.length := by
  induction ys with
  | nil => simp [levenshtein_nil_nil]
  | cons y ys ih =>
    rw [levenshtein_nil_cons, ih]
    simp [Levenshtein.defaultCost]
    omega

theorem lev_cons_nil (xs : List Char) :
    levenshtein Levenshtein.defaultCost xs ([] : List Char) = xs.length := by
  induction xs with
  | nil => simp [levenshtein_nil_nil]
  | cons x xs ih =>
    rw [levenshtein_cons_nil, ih]
    simp [Levenshtein.defaultCost]
    omega

theorem lev_le_max (xs ys : List Char) :
    levenshtein Levenshtein.defaultCost xs ys ≤ max xs.length ys.length := by
  induction xs generalizing ys with
  | nil => rw [lev_nil_left]; exact le_max_right _ _
  | cons x xs ih =>
    cases ys with
    | nil =>
      rw [lev_cons_nil]
      exact le_max_left _ _
    | cons y ys =>
      rw [levenshtein_cons_cons]
      refine le_trans (le_trans inf_le_right inf_le_right) ?_
      have hsub : (Levenshtein.defaultCost : Levenshtein.Cost Char Char ℕ).substitute x y ≤ 1 := by
        simp only [Levenshtein.defaultCost]
        split <;> omega
      have := ih ys
      simp only [List.length_cons, Nat.succ_max_succ]
      omega

theorem find?_first {α : Type} (p : α → Bool) (l : List α) (c : α) :
    l.find? p = some c ↔
      ∃ l₁ l₂, l = l₁ ++ c :: l₂ ∧ p c = true ∧ ∀ x ∈ l₁, p x = false := by
  constructor
  · intro h
    induction l with
    | nil => simp at h
    | cons a as ih =>
      rw [List.find?_cons] at h
      split at h
      · obtain rfl : a = c := by simpa using h
        exact ⟨[], as, rfl, by assumption, by simp⟩
      · obtain ⟨l₁, l₂, rfl, hc, hall⟩ := ih h
        refine ⟨a :: l₁, l₂, rfl, hc, ?_⟩
        intro x hx
        rcases List.mem_cons.mp hx with rfl | hx
        · simpa using by assumption
        · exact hall x hx
  · rintro ⟨l₁, l₂, rfl, hc, hall⟩
    induction l₁ with
    | nil => simp [List.find?_cons, hc]
    | cons a l₁ ih =>
      have ha : p a = false := hall a (by simp)
      rw [List.cons_append, List.find?_cons, ha]
      exact ih (fun x hx => hall x (List.mem_cons_of_mem a hx))

theorem toList_length (s : String) : s.toList.length = s.length := rfl

/-! ## Claim theorems -/

/-- Claim C9: the similarity scorer is a total function that compares a
normalized edit-distance similarity lying in `[0, 1]` against the fixed
threshold `0.85` (inside the documented `0.85`–`0.90` range), and it judges
"Naruto Shippuden" / "Naruto: Shippuden" and "Tsukimichi: Moonlit Fantasy" /
"TSUKIMICHI -Moonlit Fantasy-" similar, but "Tokyo Vice" /
"The Tokyo Project" and "RWBY" / "RWBY: Ice Queendom" not similar. -/
theorem titleSimilarity_spec :
    (∀ a b : String, 0 ≤ levenshteinSimilarity a b ∧ levenshteinSimilarity a b ≤ 1) ∧
    ((85 : ℚ) / 100 ≤ THRESHOLD ∧ THRESHOLD ≤ (90 : ℚ) / 100) ∧
    titleSimilarity "Naruto Shippuden" "Naruto: Shippuden" = .similar ∧
    titleSimilarity "Tsukimichi: Moonlit Fantasy" "TSUKIMICHI -Moonlit Fantasy-" = .similar ∧
    titleSimilarity "Tokyo Vice" "The Tokyo Project" = .notSimilar ∧
    titleSimilarity "RWBY" "RWBY: Ice Queendom" = .notSimilar := by
  refine ⟨?_, ⟨le_refl _, by norm_num [THRESHOLD]⟩, ?_, ?_, ?_, ?_⟩
  · intro a b
    unfold levenshteinSimilarity
    split
    · norm_num
    · rename_i hm
      have hd : levenshtein Levenshtein.defaultCost
          (a.toList.map Char.toLower) (b.toList.map Char.toLower) ≤
          max a.length b.length := by
        have h := lev_le_max (a.toList.map Char.toLower) (b.toList.map Char.toLower)
        rwa [List.length_map, List.length_map, toList_length, toList_length] at h
      have hmpos : (0 : ℚ) < ((max a.length b.length : ℕ) : ℚ) := by
        exact_mod_cast Nat.pos_of_ne_zero hm
      constructor
      · rw [sub_nonneg, div_le_one hmpos]
        exact_mod_cast hd
      · exact sub_le_self 1 (div_nonneg (by positivity) (le_of_lt hmpos))
  · have hd : levenshtein Levenshtein.defaultCost
        ("Naruto Shippuden".toList.map Char.toLower)
        ("Naruto: Shippuden".toList.map Char.toLower) = 1 := by decide
    have hsim : levenshteinSimilarity "Naruto Shippuden" "Naruto: Shippuden" = 16 / 17 := by
      rw [levenshteinSimilarity, hd,
        show ("Naruto Shippuden" : String).length = 16 from by decide,
        show ("Naruto: Shippuden" : String).length = 17 from by decide]
      norm_num
    rw [titleSimilarity, hsim, if_pos (by norm_num [THRESHOLD])]
  · have hd : levenshtein Levenshtein.defaultCost
        ("Tsukimichi: Moonlit Fantasy".toList.map Char.toLower)
        ("TSUKIMICHI -Moonlit Fantasy-".toList.map Char.toLower) = 3 := by decide
    have hsim : levenshteinSimilarity "Tsukimichi: Moonlit Fantasy"
        "TSUKIMICHI -Moonlit Fantasy-" = 25 / 28 := by
      rw [levenshteinSimilarity, hd,
        show ("Tsukimichi: Moonlit Fantasy" : String).length = 27 from by decide,
        show ("TSUKIMICHI -Moonlit Fantasy-" : String).length = 28 from by decide]
      norm_num
    rw [titleSimilarity, hsim, if_pos (by norm_num [THRESHOLD])]
  · have hd : levenshtein Levenshtein.defaultCost
        ("Tokyo Vice".toList.map Char.toLower)
        ("The Tokyo Project".toList.map Char.toLower) = 10 := by decide
    have hsim : levenshteinSimilarity "Tokyo Vice" "The Tokyo Project" = 7 / 17 := by
      rw [levenshteinSimilarity, hd,
        show ("Tokyo Vice" : String).length = 10 from by decide,
        show ("The Tokyo Project" : String).length = 17 from by decide]
      norm_num
    rw [titleSimilarity, hsim, if_neg (by norm_num [THRESHOLD])]
  · have hd : levenshtein Levenshtein.defaultCost
        ("RWBY".toList.map Char.toLower)
        ("RWBY: Ice Queendom".toList.map Char.toLower) = 14 := by decide
    have hsim : levenshteinSimilarity "RWBY" "RWBY: Ice Queendom" = 2 / 9 := by
      rw [levenshteinSimilarity, hd,
        show ("RWBY" : String).length = 4 from by decide,
        show ("RWBY: Ice Queendom" : String).length = 18 from by decide]
      norm_num
    rw [titleSimilarity, hsim, if_neg (by norm_num [THRESHOLD])]

/-- Claim C2: on the candidates surviving the format filter, `getRanking`
returns the first candidate whose official title set contains a string similar
to the normalized input title; only when no candidate matches on official
titles does it return the first candidate whose synonym list contains a
similar string; when neither pass matches it returns no match. -/
theorem getRanking_two_pass {α : Type} (cleanedTitle : String)
    (results : List (α × Metadata)) :
    (getRanking cleanedTitle results = none ↔
      ∀ c ∈ results, providerTitleIsIn cleanedTitle c.2.allTitles = false ∧
        providerTitleIsIn cleanedTitle c.2.titleSynonyms = false) ∧
    (∀ r : α, getRanking cleanedTitle results = some r ↔
      ((∃ l₁ c l₂, results = l₁ ++ c :: l₂ ∧
          providerTitleIsIn cleanedTitle c.2.allTitles = true ∧ r = c.1 ∧
          ∀ x ∈ l₁, providerTitleIsIn cleanedTitle x.2.allTitles = false) ∨
        ((∀ c ∈ results, providerTitleIsIn cleanedTitle c.2.allTitles = false) ∧
          ∃ l₁ c l₂, results = l₁ ++ c :: l₂ ∧
            providerTitleIsIn cleanedTitle c.2.titleSynonyms = true ∧ r = c.1 ∧
            ∀ x ∈ l₁, providerTitleIsIn cleanedTitle x.2.titleSynonyms = false))) := by
  cases h1 : results.find? (fun c => providerTitleIsIn cleanedTitle c.2.allTitles) with
  | some c =>
    have hgr : getRanking cleanedTitle results = some c.1 := by
      unfold getRanking
      rw [h1]
      rfl
    have hcp : providerTitleIsIn cleanedTitle c.2.allTitles = true := by
      simpa using List.find?_some h1
    have hcm : c ∈ results := List.mem_of_find?_eq_some h1
    constructor
    · rw [hgr]
      constructor
      · intro h
        cases h
      · intro hall
        have := (hall c hcm).1
        rw [this] at hcp
        cases hcp
    · intro r
      rw [hgr]
      constructor
      · intro hr
        left
        obtain ⟨l₁, l₂, heq, hc, hall⟩ := (find?_first _ results c).mp h1
        exact ⟨l₁, c, l₂, heq, hcp, (Option.some_inj.mp hr).symm,
          fun x hx => by simpa using hall x hx⟩
      · rintro (⟨l₁, c', l₂, heq, hc', hr, hall⟩ | ⟨hnone, _⟩)
        · have hfind : results.find?
              (fun c => providerTitleIsIn cleanedTitle c.2.allTitles) = some c' := by
            rw [find?_first]
            exact ⟨l₁, l₂, heq, by simpa using hc',
              fun x hx => by simpa using hall x hx⟩
          rw [h1] at hfind
          cases hfind
          rw [hr]
        · have := hnone c hcm
          rw [this] at hcp
          cases hcp
  | none =>
    have hnone : ∀ c ∈ results, providerTitleIsIn cleanedTitle c.2.allTitles = false :=
      fun c hc => by simpa using List.find?_eq_none.mp h1 c hc
    cases h2 : results.find? (fun c => providerTitleIsIn cleanedTitle c.2.titleSynonyms) with
    | some c =>
      have hgr : getRanking cleanedTitle results = some c.1 := by
        unfold getRanking
        rw [h1]
        show (results.find?
          (fun c => providerTitleIsIn cleanedTitle c.2.titleSynonyms)).map Prod.fst = _
        rw [h2]
        rfl
      have hcp : providerTitleIsIn cleanedTitle c.2.titleSynonyms = true := by
        simpa using List.find?_some h2
      have hcm : c ∈ results := List.mem_of_find?_eq_some h2
      constructor
      · rw [hgr]
        constructor
        · intro h
          cases h
        · intro hall
          have := (hall c hcm).2
          rw [this] at hcp
          cases hcp
      · intro r
        rw [hgr]
        constructor
        · intro hr
          right
          obtain ⟨l₁, l₂, heq, hc, hall⟩ := (find?_first _ results c).mp h2
          exact ⟨hnone, l₁, c, l₂, heq, hcp, (Option.some_inj.mp hr).symm,
            fun x hx => by simpa using hall x hx⟩
        · rintro (⟨l₁, c', l₂, heq, hc', hr, hall⟩ | ⟨_, l₁, c', l₂, heq, hc', hr, hall⟩)
          · have : providerTitleIsIn cleanedTitle c'.2.allTitles = false := by
              apply hnone
              rw [heq]
              simp
            rw [this] at hc'
            cases hc'
          · have hfind : results.find?
                (fun c => providerTitleIsIn cleanedTitle c.2.titleSynonyms) = some c' := by
              rw [find?_first]
              exact ⟨l₁, l₂, heq, by simpa using hc',
                fun x hx => by simpa using hall x hx⟩
            rw [h2] at hfind
            cases hfind
            rw [hr]
    | none =>
      have hnone2 : ∀ c ∈ results, providerTitleIsIn cleanedTitle c.2.titleSynonyms = false :=
        fun c hc => by simpa using List.find?_eq_none.mp h2 c hc
      have hgr : getRanking cleanedTitle results = none := by
        unfold getRanking
        rw [h1]
        show (results.find?
          (fun c => providerTitleIsIn cleanedTitle c.2.titleSynonyms)).map Prod.fst = _
        rw [h2]
        rfl
      constructor
      · rw [hgr]
        simp only [true_iff]
        intro c hc
        exact ⟨hnone c hc, hnone2 c hc⟩
      · intro r
        rw [hgr]
        constructor
        · intro h
          cases h
        · rintro (⟨l₁, c', l₂, heq, hc', _, _⟩ | ⟨_, l₁, c', l₂, heq, hc', _, _⟩)
          · have : providerTitleIsIn cleanedTitle c'.2.allTitles = false := by
              apply hnone
              rw [heq]
              simp
            rw [this] at hc'
            cases hc'
          · have : providerTitleIsIn cleanedTitle c'.2.titleSynonyms = false := by
              apply hnone2
              rw [heq]
              simp
            rw [this] at hc'
            cases hc'

theorem tieLe_total (a b : MediaRow × Option RankRow) :
    tieLe a b = true ∨ tieLe b a = true := by
  unfold tieLe
  by_cases h : a.1.providerTitle = b.1.providerTitle
  · rw [if_pos h, if_pos h.symm]
    rcases le_total a.1.provider.toName b.1.provider.toName with hle | hle
    · exact Or.inl (decide_eq_true hle)
    · exact Or.inr (decide_eq_true hle)
  · rw [if_neg h, if_neg (Ne.symm h)]
    rcases lt_or_gt_of_ne h with hlt | hlt
    · exact Or.inl (decide_eq_true hlt)
    · exact Or.inr (decide_eq_true hlt)

theorem tieLe_trans {a b c : MediaRow × Option RankRow} :
    tieLe a b = true → tieLe b c = true → tieLe a c = true := by
  simp only [tieLe]
  split_ifs with h1 h2 h3 h4 h5 h6 h7 <;> simp only [decide_eq_true_eq] <;>
    intro hab hbc
  · exact le_trans hab hbc
  · exact absurd (h1.trans h2) h3
  · exact absurd (h1.symm.trans h4) h2
  · rw [h1]
    exact hbc
  · rw [h5.trans h6.symm] at hab
    exact absurd hab (lt_irrefl _)
  · rw [← h5]
    exact hab
  · exact absurd h7 (ne_of_lt (lt_trans hab hbc))
  · exact lt_trans hab hbc

theorem sqlLe_total (a b : MediaRow × Option RankRow) :
    sqlLe a b = true ∨ sqlLe b a = true := by
  rcases hsa : rowScore a with _ | sa <;> rcases hsb : rowScore b with _ | sb <;>
    simp only [sqlLe, hsa, hsb]
  · exact tieLe_total a b
  · exact Or.inr (by simp)
  · exact Or.inl (by simp)
  · by_cases h : sa = sb
    · rw [if_pos h, if_pos h.symm]
      exact tieLe_total a b
    · rw [if_neg h, if_neg (Ne.symm h)]
      rcases lt_or_gt_of_ne h with hlt | hlt
      · exact Or.inr (decide_eq_true hlt)
      · exact Or.inl (decide_eq_true hlt)

theorem sqlLe_trans {a b c : MediaRow × Option RankRow} :
    sqlLe a b = true → sqlLe b c = true → sqlLe a c = true := by
  rcases hsa : rowScore a with _ | sa <;> rcases hsb : rowScore b with _ | sb <;>
    rcases hsc : rowScore c with _ | sc <;>
    simp only [sqlLe, hsa, hsb, hsc]
  · exact tieLe_trans
  · intro _ h
    simp at h
  · intro h _
    simp at h
  · intro h _
    simp at h
  · intro _ _
    trivial
  · intro _ h
    simp at h
  · intro _ _
    trivial
  · split_ifs with h1 h2 h3 h4 h5 h6 h7 <;> intro hab hbc
    · exact tieLe_trans hab hbc
    · exact absurd (h1.trans h2) h3
    · exact absurd (h1.symm.trans h4) h2
    · exact decide_eq_true (by rw [h1]; exact of_decide_eq_true hbc)
    · have hlt := of_decide_eq_true hab
      rw [h5.trans h6.symm] at hlt
      exact absurd hlt (lt_irrefl _)
    · exact decide_eq_true (by rw [← h5]; exact of_decide_eq_true hab)
    · exact absurd h7
        (ne_of_gt (lt_trans (of_decide_eq_true hbc) (of_decide_eq_true hab)))
    · exact decide_eq_true
        (lt_trans (of_decide_eq_true hbc) (of_decide_eq_true hab))


instance : IsTotal (MediaRow × Option RankRow) (fun a b => sqlLe a b = true) :=
  ⟨sqlLe_total⟩

instance : IsTrans (MediaRow × Option RankRow) (fun a b => sqlLe a b = true) :=
  ⟨fun _ _ _ => sqlLe_trans⟩

/-- The tie-break order of the spec: `sourceTitle` (providerTitle) ascending,
then `sourceName` (provider) ascending. -/
def specTieLe (a b : MediaRow × Option RankRow) : Prop :=
  a.1.providerTitle < b.1.providerTitle ∨
    (a.1.providerTitle = b.1.providerTitle ∧ a.1.provider.toName ≤ b.1.provider.toName)

/-- The ordering the spec claims for `query()` results: score descending with
entries lacking a score last, ties broken by title then source. -/
def specLe (a b : MediaRow × Option RankRow) : Prop :=
  match rowScore a, rowScore b with
  | some sa, some sb => sb < sa ∨ (sa = sb ∧ specTieLe a b)
  | some _, none => True
  | none, some _ => False
  | none, none => specTieLe a b

theorem tieLe_imp_specTieLe {a b : MediaRow × Option RankRow}
    (h : tieLe a b = true) : specTieLe a b := by
  unfold tieLe at h
  unfold specTieLe
  split_ifs at h with h1
  · exact Or.inr ⟨h1, of_decide_eq_true h⟩
  · exact Or.inl (of_decide_eq_true h)

theorem sqlLe_imp_specLe {a b : MediaRow × Option RankRow}
    (h : sqlLe a b = true) : specLe a b := by
  rcases hsa : rowScore a with _ | sa <;> rcases hsb : rowScore b with _ | sb <;>
    simp only [sqlLe, hsa, hsb] at h <;> simp only [specLe, hsa, hsb]
  · exact tieLe_imp_specTieLe h
  · trivial
  · split_ifs at h with h1
    · exact Or.inr ⟨h1, tieLe_imp_specTieLe h⟩
    · exact Or.inl (of_decide_eq_true h)

/-- Claim C3: `getAll` with no filter returns all live entries left-joined
with their Rank when present, ordered by score descending (entries lacking a
score last), ties broken by providerTitle ascending then provider ascending. -/
theorem getAll_default_spec (db : DB) :
    List.Perm (getAll db) (db.media.map (joinRank db)) ∧
    (∀ p ∈ getAll db,
      p.2 = p.1.rankId.bind (fun rid => db.ranks.find? (fun r => r.rankId == rid))) ∧
    (getAll db).Pairwise specLe := by
  refine ⟨List.perm_insertionSort _ _, ?_, ?_⟩
  · intro p hp
    have hp' : p ∈ db.media.map (joinRank db) :=
      (List.perm_insertionSort _ _).mem_iff.mp hp
    obtain ⟨m, _, rfl⟩ := List.mem_map.mp hp'
    rfl
  · exact (List.sorted_insertionSort _ _).imp (fun h => sqlLe_imp_specLe h)

theorem dbDelete_not_found {db : DB} {k : MediaPrimaryKey}
    (h : ¬ LiveKey k db) : dbDelete k db = .error () := by
  have hmoved : db.media.filter (keyMatches k) = [] := by
    rw [List.filter_eq_nil_iff]
    intro m hm hk
    exact h ⟨m, hm, hk⟩
  simp [dbDelete, hmoved]

theorem dbDelete_found {db : DB} {k : MediaPrimaryKey}
    (h : LiveKey k db) :
    dbDelete k db = .ok
      { media := db.media.filter (fun m => !(keyMatches k m)),
        ranks := db.ranks,
        deleted := db.deleted ++ db.media.filter (keyMatches k) } := by
  obtain ⟨m, hm, hk⟩ := h
  have hne : db.media.filter (keyMatches k) ≠ [] := by
    intro hnil
    rw [List.filter_eq_nil_iff] at hnil
    exact hnil m hm hk
  have hempty : (db.media.filter (keyMatches k)).isEmpty = false := by
    cases hfl : db.media.filter (keyMatches k) with
    | nil => exact absurd hfl hne
    | cons a l => rfl
  simp [dbDelete, hempty]

/-- Claim C5: `delete` fails when no live entry matches the key, and otherwise
moves the matching live entry into the Deleted archive, leaving every other
live entry, the archive prefix, and every Rank row (shared or not) unchanged. -/
theorem delete_archive_spec (db : DB) (k : MediaPrimaryKey) :
    (¬ LiveKey k db → dbDelete k db = .error ()) ∧
    (LiveKey k db →
      dbDelete k db = .ok
        { media := db.media.filter (fun m => !(keyMatches k m)),
          ranks := db.ranks,
          deleted := db.deleted ++ db.media.filter (keyMatches k) }) :=
  ⟨fun h => dbDelete_not_found h, fun h => dbDelete_found h⟩

/-- Witness for C5: the spec's shared-Rank scenario.  The same Rank
`"Anilist:2001"` is attached to two entries on two different sources;
archiving the Netflix one leaves the Hulu entry and the shared Rank intact,
and archiving an absent key fails. -/
theorem delete_archive_spec_witness :
    dbDelete ⟨.Hulu, "Missing"⟩
      ⟨[⟨"Gurren Lagann", .TV, "https://hulu.example/g", .Hulu, some "Anilist:2001"⟩,
        ⟨"Gurren Lagann", .TV, "https://netflix.example/g", .Netflix, some "Anilist:2001"⟩],
       [⟨"Anilist:2001", "Gurren Lagann", "https://anilist.co/anime/2001", some 85,
         "Anilist", "2025-10-13T02:24:43.409Z", "https://img.example/p", "Action", none, none⟩],
       []⟩ = .error () ∧
    dbDelete ⟨.Netflix, "Gurren Lagann"⟩
      ⟨[⟨"Gurren Lagann", .TV, "https://hulu.example/g", .Hulu, some "Anilist:2001"⟩,
        ⟨"Gurren Lagann", .TV, "https://netflix.example/g", .Netflix, some "Anilist:2001"⟩],
       [⟨"Anilist:2001", "Gurren Lagann", "https://anilist.co/anime/2001", some 85,
         "Anilist", "2025-10-13T02:24:43.409Z", "https://img.example/p", "Action", none, none⟩],
       []⟩ = .ok
      ⟨[⟨"Gurren Lagann", .TV, "https://hulu.example/g", .Hulu, some "Anilist:2001"⟩],
       [⟨"Anilist:2001", "Gurren Lagann", "https://anilist.co/anime/2001", some 85,
         "Anilist", "2025-10-13T02:24:43.409Z", "https://img.example/p", "Action", none, none⟩],
       [⟨"Gurren Lagann", .TV, "https://netflix.example/g", .Netflix, some "Anilist:2001"⟩]⟩ := by
  constructor
  · exact (delete_archive_spec _ _).1 (by decide)
  · rw [(delete_archive_spec _ _).2 (by decide)]
    rfl

/-- The keys the spec says an `archiveMany` run must report: walking the key
list against the current live table, a key with no live match is collected as
failed, a key with a live match archives its rows and continues. -/
def specFailed (media : List MediaRow) : List MediaPrimaryKey → List MediaPrimaryKey
  | [] => []
  | k :: ks =>
    if media.any (keyMatches k) then
      specFailed (media.filter (fun m => !(keyMatches k m))) ks
    else k :: specFailed media ks

theorem filter_or_perm {α : Type} (p q : α → Bool) (l : List α) :
    List.Perm (l.filter (fun x => p x || q x))
      (l.filter p ++ (l.filter (fun x => !(p x))).filter q) := by
  induction l with
  | nil => simp
  | cons x l ih =>
    by_cases hp : p x = true
    · simpa [hp] using ih.cons x
    · have hp' : p x = false := by rwa [← Bool.not_eq_true]
      by_cases hq : q x = true
      · have hgoal :
            List.Perm (x :: l.filter (fun x => p x || q x))
              (l.filter p ++ x :: (l.filter (fun x => !(p x))).filter q) :=
          (ih.cons x).trans List.perm_middle.symm
        simpa [hp', hq] using hgoal
      · have hq' : q x = false := by rwa [← Bool.not_eq_true]
        simpa [hp', hq'] using ih

/-- Claim C6: `deleteMany` attempts each key independently inside one
transaction.  Every key matching a live entry at its turn is archived and this
partial success is committed (the final live table is the initial one minus
all listed keys, the archive receives exactly the matching rows, Ranks are
untouched), and the keys reported in the aggregate failure are exactly the
keys that found no live entry at their turn. -/
theorem deleteMany_spec (ks : List MediaPrimaryKey) (db : DB) :
    (deleteMany ks db).1.media =
      db.media.filter (fun m => !(ks.any (fun k => keyMatches k m))) ∧
    (deleteMany ks db).1.ranks = db.ranks ∧
    List.Perm (deleteMany ks db).1.deleted
      (db.deleted ++ db.media.filter (fun m => ks.any (fun k => keyMatches k m))) ∧
    (deleteMany ks db).2 = specFailed db.media ks := by
  induction ks generalizing db with
  | nil => simp [deleteMany, specFailed]
  | cons k rest ih =>
    by_cases hlive : LiveKey k db
    · have hdel := dbDelete_found hlive
      have hany : db.media.any (keyMatches k) = true := by
        obtain ⟨m, hm, hk⟩ := hlive
        exact List.any_eq_true.mpr ⟨m, hm, hk⟩
      have hstep : deleteMany (k :: rest) db = deleteMany rest
          { media := db.media.filter (fun m => !(keyMatches k m)),
            ranks := db.ranks,
            deleted := db.deleted ++ db.media.filter (keyMatches k) } := by
        simp only [deleteMany, hdel]
      obtain ⟨ihm, ihr, ihd, ihf⟩ := ih
        { media := db.media.filter (fun m => !(keyMatches k m)),
          ranks := db.ranks,
          deleted := db.deleted ++ db.media.filter (keyMatches k) }
      rw [hstep]
      refine ⟨?_, ihr, ?_, ?_⟩
      · rw [ihm]
        show (db.media.filter _).filter _ = _
        rw [List.filter_filter]
        apply List.filter_congr
        intro m _
        cases hk : keyMatches k m <;> simp [hk]
      · refine ihd.trans ?_
        show List.Perm ((db.deleted ++ db.media.filter (keyMatches k)) ++
            ((db.media.filter (fun m => !(keyMatches k m))).filter
              (fun m => rest.any (fun k' => keyMatches k' m))))
          (db.deleted ++ db.media.filter
            (fun m => (k :: rest).any (fun k' => keyMatches k' m)))
        rw [List.append_assoc]
        apply List.Perm.append_left
        have h1 : db.media.filter (fun m => (k :: rest).any (fun k' => keyMatches k' m)) =
            db.media.filter (fun m => keyMatches k m || rest.any (fun k' => keyMatches k' m)) := by
          apply List.filter_congr
          intro m _
          simp
        rw [h1]
        exact (filter_or_perm (keyMatches k)
          (fun m => rest.any (fun k' => keyMatches k' m)) db.media).symm
      · rw [ihf]
        show _ = specFailed db.media (k :: rest)
        rw [specFailed, if_pos hany]
    · have hdel := dbDelete_not_found hlive
      have hforall : ∀ m ∈ db.media, keyMatches k m = false := by
        intro m hm
        by_contra h
        exact hlive ⟨m, hm, by rwa [← Bool.not_eq_false]⟩
      have hany : db.media.any (keyMatches k) = false := by
        rw [List.any_eq_false]
        intro m hm
        simp [hforall m hm]
      rcases hdm : deleteMany rest db with ⟨db'', failed⟩
      have hstep : deleteMany (k :: rest) db = (db'', k :: failed) := by
        simp only [deleteMany, hdel, hdm]
      obtain ⟨ihm, ihr, ihd, ihf⟩ := ih db
      rw [hdm] at ihm ihr ihd ihf
      rw [hstep]
      refine ⟨?_, ihr, ?_, ?_⟩
      · rw [ihm]
        apply List.filter_congr
        intro m hm
        simp [hforall m hm]
      · refine ihd.trans ?_
        apply List.Perm.append_left
        have h1 : db.media.filter (fun m => (k :: rest).any (fun k' => keyMatches k' m)) =
            db.media.filter (fun m => rest.any (fun k' => keyMatches k' m)) := by
          apply List.filter_congr
          intro m hm
          simp [hforall m hm]
        rw [h1]
      · rw [specFailed, if_neg (by simp [hany])]
        show k :: failed = k :: specFailed db.media rest
        rw [← ihf]

/-- Witness for C6: deleting one present key and one absent key archives the
present one, commits that partial success, and reports exactly the absent
key. -/
theorem deleteMany_spec_witness :
    deleteMany [⟨.Hulu, "Suzume"⟩, ⟨.Netflix, "Missing"⟩]
      ⟨[⟨"Suzume", .MOVIE, "https://hulu.example/s", .Hulu, none⟩], [], []⟩ =
      (⟨[], [], [⟨"Suzume", .MOVIE, "https://hulu.example/s", .Hulu, none⟩]⟩,
        [⟨.Netflix, "Missing"⟩]) := by
  obtain ⟨h1, h2, h3, h4⟩ := deleteMany_spec [⟨.Hulu, "Suzume"⟩, ⟨.Netflix, "Missing"⟩]
    ⟨[⟨"Suzume", .MOVIE, "https://hulu.example/s", .Hulu, none⟩], [], []⟩
  rcases hval : deleteMany [⟨.Hulu, "Suzume"⟩, ⟨.Netflix, "Missing"⟩]
      ⟨[⟨"Suzume", .MOVIE, "https://hulu.example/s", .Hulu, none⟩], [], []⟩ with ⟨⟨m1, r1, d1⟩, f1⟩
  rw [hval] at h1 h2 h3 h4
  have hm : m1 = [] := h1.trans rfl
  have hr : r1 = [] := h2
  have hf : f1 = [⟨.Netflix, "Missing"⟩] := h4.trans rfl
  have hd : d1 = [⟨"Suzume", .MOVIE, "https://hulu.example/s", .Hulu, none⟩] := by
    have h3' : List.Perm d1 [⟨"Suzume", .MOVIE, "https://hulu.example/s", .Hulu, none⟩] := by
      refine List.Perm.trans h3 ?_
      rfl
    exact List.perm_singleton.mp h3'
  subst hm
  subst hr
  subst hd
  subst hf
  exact hval

theorem insert_ranks {e : MaybeRankedMedia} (db : DB)
    (h : rankInsertThrows e = false) :
    (insert e db).1.ranks = ranksAfterUpsert e db.ranks := by
  rw [insert, if_neg (by simp [h])]
  split
  · rfl
  · split <;> rfl

theorem insert_deleted (e : MaybeRankedMedia) (db : DB) :
    (insert e db).1.deleted = db.deleted := by
  simp only [insert]
  split
  · rfl
  · split
    · rfl
    · split <;> rfl

theorem insert_false_media {e : MaybeRankedMedia} {db : DB}
    (h : (insert e db).2 = false) : (insert e db).1.media = db.media := by
  by_cases h0 : rankInsertThrows e = true
  · rw [insert, if_pos h0]
  · by_cases h1 : db.media.any (keyMatches e.key) = true
    · rw [insert, if_neg h0, if_pos h1]
    · by_cases h2 : fkViolation e.rankId (ranksAfterUpsert e db.ranks) = true
      · rw [insert, if_neg h0, if_neg h1, if_pos h2]
      · rw [insert, if_neg h0, if_neg h1, if_neg h2] at h
        cases h

theorem insert_true_media {e : MaybeRankedMedia} {db : DB}
    (h : (insert e db).2 = true) :
    (insert e db).1.media = db.media ++ [mediaRowOf e] ∧
      db.media.any (keyMatches e.key) = false := by
  by_cases h0 : rankInsertThrows e = true
  · rw [insert, if_pos h0] at h
    cases h
  · by_cases h1 : db.media.any (keyMatches e.key) = true
    · rw [insert, if_neg h0, if_pos h1] at h
      cases h
    · by_cases h2 : fkViolation e.rankId (ranksAfterUpsert e db.ranks) = true
      · rw [insert, if_neg h0, if_neg h1, if_pos h2] at h
        cases h
      · rw [insert, if_neg h0, if_neg h1, if_neg h2]
        rw [Bool.not_eq_true] at h1
        exact ⟨rfl, h1⟩

/-- Claim C4: when the store already holds a Rank row with the incoming
entry's `rankId`, inserting that entry (whose resolved score, per the data
model of spec §3, lies in `[0, 100]` when present) refreshes only that row's
`score` and `lastUpdated` columns, leaves every other column and every other
Rank row unchanged, and creates no second Rank row. -/
theorem insert_same_rankId_refreshes (db : DB) (e : MaybeRankedMedia) (r : RankRow)
    (he : encodeRank e = some r) (hscore : scoreValid r.score = true)
    (hdup : ∃ q ∈ db.ranks, q.rankId = r.rankId) :
    (insert e db).1.ranks =
      db.ranks.map (fun q =>
        if q.rankId = r.rankId then
          { q with score := r.score, lastUpdated := r.lastUpdated }
        else q) ∧
    (insert e db).1.ranks.length = db.ranks.length := by
  have hth : rankInsertThrows e = false := by
    simp [rankInsertThrows, he, hscore]
  have hany : db.ranks.any (fun q => q.rankId == r.rankId) = true := by
    obtain ⟨q, hq, he'⟩ := hdup
    exact List.any_eq_true.mpr ⟨q, hq, by simp [he']⟩
  have hmap : (insert e db).1.ranks =
      db.ranks.map (fun q =>
        if q.rankId = r.rankId then
          { q with score := r.score, lastUpdated := r.lastUpdated }
        else q) := by
    rw [insert_ranks db hth]
    show ranksAfterUpsert e db.ranks = _
    rw [ranksAfterUpsert, he]
    show upsertRank r db.ranks = _
    rw [upsertRank, if_pos hany]
    apply List.map_congr_left
    intro q _
    by_cases h : q.rankId = r.rankId
    · rw [if_pos (by simp [h]), if_pos h]
    · rw [if_neg (by simp [h]), if_neg h]
  exact ⟨hmap, by rw [hmap, List.length_map]⟩

/-- Witness for C4: re-resolving `rankId` `"Anilist:2001"` refreshes the
stored row's score (60 → 85) and timestamp only; its other columns and the
row count are untouched, even though the incoming entry carries a different
`rankerTitle`. -/
theorem insert_same_rankId_refreshes_witness :
    (insert
      ⟨"Gurren Lagann", .TV, "https://netflix.example/g", .Netflix,
        some "Anilist:2001", some "TTGL", some "https://anilist.co/anime/2001",
        some 85, some "Anilist", some "2026-01-01T00:00:00.000Z",
        some "https://img.example/p2", some "Action", none, none⟩
      ⟨[⟨"Gurren Lagann", .TV, "https://hulu.example/g", .Hulu, some "Anilist:2001"⟩],
       [⟨"Anilist:2001", "Gurren Lagann", "https://anilist.co/anime/2001", some 60,
         "Anilist", "2025-10-13T02:24:43.409Z", "https://img.example/p", "Action",
         none, none⟩],
       []⟩).1.ranks =
      [⟨"Anilist:2001", "Gurren Lagann", "https://anilist.co/anime/2001", some 85,
        "Anilist", "2026-01-01T00:00:00.000Z", "https://img.example/p", "Action",
        none, none⟩] := by
  rw [(insert_same_rankId_refreshes
    ⟨[⟨"Gurren Lagann", .TV, "https://hulu.example/g", .Hulu, some "Anilist:2001"⟩],
     [⟨"Anilist:2001", "Gurren Lagann", "https://anilist.co/anime/2001", some 60,
       "Anilist", "2025-10-13T02:24:43.409Z", "https://img.example/p", "Action",
       none, none⟩],
     []⟩
    ⟨"Gurren Lagann", .TV, "https://netflix.example/g", .Netflix,
      some "Anilist:2001", some "TTGL", some "https://anilist.co/anime/2001",
      some 85, some "Anilist", some "2026-01-01T00:00:00.000Z",
      some "https://img.example/p2", some "Action", none, none⟩
    ⟨"Anilist:2001", "TTGL", "https://anilist.co/anime/2001", some 85, "Anilist",
      "2026-01-01T00:00:00.000Z", "https://img.example/p2", "Action", none, none⟩
    rfl
    (by decide)
    (by decide)).1]
  rfl

theorem insertManyGo_true_media (es : List MaybeRankedMedia) (db : DB)
    (h : (insertManyGo es db).2 = true) :
    (insertManyGo es db).1.media = db.media ++ es.map mediaRowOf := by
  induction es generalizing db with
  | nil => simp [insertManyGo]
  | cons e rest ih =>
    rcases hins : insert e db with ⟨db1, ok1⟩
    cases ok1 with
    | false =>
      rw [insertManyGo, hins] at h
      cases h
    | true =>
      rw [insertManyGo, hins] at h ⊢
      have hmedia : db1.media = db.media ++ [mediaRowOf e] := by
        have := @insert_true_media e db (by rw [hins])
        rw [hins] at this
        exact this.1
      rw [ih db1 h, hmedia, List.map_cons, List.append_assoc]
      rfl

/-- Claim C7: `insertMany` is atomic.  When inserting any single entry fails
the whole batch is aborted and the store is unchanged (no entry of the batch
is visible); when the batch succeeds every entry of the batch is appended to
the live table. -/
theorem insertMany_atomic (es : List MaybeRankedMedia) (db : DB) :
    ((insertMany es db).2 = false → (insertMany es db).1 = db) ∧
    ((insertMany es db).2 = true →
      (insertMany es db).1.media = db.media ++ es.map mediaRowOf) := by
  rcases hgo : insertManyGo es db with ⟨db', ok⟩
  cases ok with
  | false =>
    rw [insertMany, hgo]
    exact ⟨fun _ => rfl, fun h => by cases h⟩
  | true =>
    rw [insertMany, hgo]
    refine ⟨(fun h => by cases h), fun _ => ?_⟩
    have := insertManyGo_true_media es db (by rw [hgo])
    rw [hgo] at this
    exact this

/-- Witness for C7: a batch whose second entry collides with a live key
leaves the store exactly as it was, a batch whose only (fully ranked) entry
carries the out-of-range score `101` is aborted with the store unchanged, and
a batch of one fresh entry appends it. -/
theorem insertMany_atomic_witness :
    (insertMany
      [⟨"Fresh", .TV, "https://hulu.example/f", .Hulu, none, none, none, none,
        none, none, none, none, none, none⟩,
       ⟨"Suzume", .MOVIE, "https://hulu.example/s", .Hulu, none, none, none, none,
        none, none, none, none, none, none⟩]
      ⟨[⟨"Suzume", .MOVIE, "https://hulu.example/s", .Hulu, none⟩], [], []⟩).1 =
      ⟨[⟨"Suzume", .MOVIE, "https://hulu.example/s", .Hulu, none⟩], [], []⟩ ∧
    (insertMany
      [⟨"Overscored", .TV, "https://hulu.example/o", .Hulu, some "Anilist:1",
        some "Overscored", some "https://anilist.co/anime/1", some 101,
        some "Anilist", some "2026-01-01T00:00:00.000Z",
        some "https://img.example/o", some "Action", none, none⟩]
      ⟨[⟨"Suzume", .MOVIE, "https://hulu.example/s", .Hulu, none⟩], [], []⟩).1 =
      ⟨[⟨"Suzume", .MOVIE, "https://hulu.example/s", .Hulu, none⟩], [], []⟩ ∧
    (insertMany
      [⟨"Fresh", .TV, "https://hulu.example/f", .Hulu, none, none, none, none,
        none, none, none, none, none, none⟩]
      ⟨[⟨"Suzume", .MOVIE, "https://hulu.example/s", .Hulu, none⟩], [], []⟩).1.media =
      [⟨"Suzume", .MOVIE, "https://hulu.example/s", .Hulu, none⟩,
       ⟨"Fresh", .TV, "https://hulu.example/f", .Hulu, none⟩] := by
  refine ⟨?_, ?_, ?_⟩
  · exact (insertMany_atomic
      [⟨"Fresh", .TV, "https://hulu.example/f", .Hulu, none, none, none, none,
        none, none, none, none, none, none⟩,
       ⟨"Suzume", .MOVIE, "https://hulu.example/s", .Hulu, none, none, none, none,
        none, none, none, none, none, none⟩]
      ⟨[⟨"Suzume", .MOVIE, "https://hulu.example/s", .Hulu, none⟩], [], []⟩).1 rfl
  · exact (insertMany_atomic
      [⟨"Overscored", .TV, "https://hulu.example/o", .Hulu, some "Anilist:1",
        some "Overscored", some "https://anilist.co/anime/1", some 101,
        some "Anilist", some "2026-01-01T00:00:00.000Z",
        some "https://img.example/o", some "Action", none, none⟩]
      ⟨[⟨"Suzume", .MOVIE, "https://hulu.example/s", .Hulu, none⟩], [], []⟩).1 rfl
  · rw [(insertMany_atomic
      [⟨"Fresh", .TV, "https://hulu.example/f", .Hulu, none, none, none, none,
        none, none, none, none, none, none⟩]
      ⟨[⟨"Suzume", .MOVIE, "https://hulu.example/s", .Hulu, none⟩], [], []⟩).2 rfl]
    rfl

/-- The invariant of the `PRIMARY KEY ("provider", "providerTitle")`
constraint: at most one live Media row per key. -/
def KeysUnique (db : DB) : Prop :=
  db.media.Pairwise (fun a b => a.key ≠ b.key)

/-- Database states reachable through the public write operations, starting
from the empty store created by the constructor. -/
inductive Reachable : DB → Prop
  | empty : Reachable DB.empty
  | insertStep (e : MaybeRankedMedia) (db : DB) :
      Reachable db → Reachable (insert e db).1
  | insertManyStep (es : List MaybeRankedMedia) (db : DB) :
      Reachable db → Reachable (insertMany es db).1
  | deleteStep (k : MediaPrimaryKey) (db db' : DB) :
      Reachable db → dbDelete k db = .ok db' → Reachable db'
  | deleteManyStep (ks : List MediaPrimaryKey) (db : DB) :
      Reachable db → Reachable (deleteMany ks db).1

theorem keyMatches_iff {k : MediaPrimaryKey} {m : MediaRow} :
    keyMatches k m = true ↔ m.key = k := by
  cases k
  simp [keyMatches, MediaRow.key]

theorem insert_preserves_unique (e : MaybeRankedMedia) (db : DB)
    (h : KeysUnique db) : KeysUnique (insert e db).1 := by
  cases hok : (insert e db).2 with
  | false =>
    unfold KeysUnique
    rw [insert_false_media hok]
    exact h
  | true =>
    obtain ⟨hm, hany⟩ := insert_true_media hok
    unfold KeysUnique
    rw [hm, List.pairwise_append]
    refine ⟨h, List.pairwise_singleton _ _, ?_⟩
    intro a ha b hb
    rw [List.mem_singleton] at hb
    subst hb
    intro hkey
    exact (List.any_eq_false.mp hany) a ha (keyMatches_iff.mpr hkey)

theorem insertManyGo_preserves_unique (es : List MaybeRankedMedia) (db : DB)
    (h : KeysUnique db) : KeysUnique (insertManyGo es db).1 := by
  induction es generalizing db with
  | nil => exact h
  | cons e rest ih =>
    rcases hins : insert e db with ⟨db1, ok1⟩
    have hdb1 : KeysUnique db1 := by
      have hu := insert_preserves_unique e db h
      rw [hins] at hu
      exact hu
    cases ok1 with
    | false =>
      rw [insertManyGo, hins]
      exact hdb1
    | true =>
      rw [insertManyGo, hins]
      exact ih db1 hdb1

theorem insertMany_preserves_unique (es : List MaybeRankedMedia) (db : DB)
    (h : KeysUnique db) : KeysUnique (insertMany es db).1 := by
  rcases hgo : insertManyGo es db with ⟨db', ok⟩
  cases ok with
  | false =>
    rw [insertMany, hgo]
    exact h
  | true =>
    rw [insertMany, hgo]
    have hu := insertManyGo_preserves_unique es db h
    rw [hgo] at hu
    exact hu

theorem dbDelete_preserves_unique {k : MediaPrimaryKey} {db db' : DB}
    (hdel : dbDelete k db = .ok db') (h : KeysUnique db) : KeysUnique db' := by
  simp only [dbDelete] at hdel
  split at hdel
  · cases hdel
  · cases hdel
    exact List.Pairwise.sublist (List.filter_sublist _) h

theorem deleteMany_preserves_unique (ks : List MediaPrimaryKey) (db : DB)
    (h : KeysUnique db) : KeysUnique (deleteMany ks db).1 := by
  induction ks generalizing db with
  | nil => exact h
  | cons k rest ih =>
    cases hdel : dbDelete k db with
    | ok db1 =>
      rw [deleteMany, hdel]
      exact ih db1 (dbDelete_preserves_unique hdel h)
    | error u =>
      rcases hdm : deleteMany rest db with ⟨db2, f⟩
      have hu := ih db h
      rw [hdm] at hu
      rw [deleteMany, hdel, hdm]
      exact hu

/-- Claim C8: inserting an entry whose `(provider, providerTitle)` key is
already live fails with the uniqueness violation and adds no Media row, and
consequently every store state reachable through the write operations has at
most one live catalog entry per key. -/
theorem insert_duplicate_fails_keys_unique :
    (∀ (db : DB) (e : MaybeRankedMedia), LiveKey e.key db →
      (insert e db).2 = false ∧ (insert e db).1.media = db.media) ∧
    (∀ db : DB, Reachable db → KeysUnique db) := by
  constructor
  · intro db e hlive
    have hany : db.media.any (keyMatches e.key) = true := by
      obtain ⟨m, hm, hk⟩ := hlive
      exact List.any_eq_true.mpr ⟨m, hm, hk⟩
    by_cases h0 : rankInsertThrows e = true
    · rw [insert, if_pos h0]
      exact ⟨rfl, rfl⟩
    · rw [insert, if_neg h0, if_pos hany]
      exact ⟨rfl, rfl⟩
  · intro db h
    induction h with
    | empty => exact List.Pairwise.nil
    | insertStep e db _ ih => exact insert_preserves_unique e db ih
    | insertManyStep es db _ ih => exact insertMany_preserves_unique es db ih
    | deleteStep k db db' _ hdel ih => exact dbDelete_preserves_unique hdel ih
    | deleteManyStep ks db _ ih => exact deleteMany_preserves_unique ks db ih

/-- Witness for C8: inserting a second "Suzume" on Hulu fails and leaves the
live table unchanged, and the empty store trivially has unique keys. -/
theorem insert_duplicate_fails_keys_unique_witness :
    ((insert
      ⟨"Suzume", .MOVIE, "https://hulu.example/s2", .Hulu, none, none, none, none,
        none, none, none, none, none, none⟩
      ⟨[⟨"Suzume", .MOVIE, "https://hulu.example/s", .Hulu, none⟩], [], []⟩).2 = false ∧
     (insert
      ⟨"Suzume", .MOVIE, "https://hulu.example/s2", .Hulu, none, none, none, none,
        none, none, none, none, none, none⟩
      ⟨[⟨"Suzume", .MOVIE, "https://hulu.example/s", .Hulu, none⟩], [], []⟩).1.media =
      [⟨"Suzume", .MOVIE, "https://hulu.example/s", .Hulu, none⟩]) ∧
    KeysUnique DB.empty := by
  constructor
  · exact insert_duplicate_fails_keys_unique.1
      ⟨[⟨"Suzume", .MOVIE, "https://hulu.example/s", .Hulu, none⟩], [], []⟩
      ⟨"Suzume", .MOVIE, "https://hulu.example/s2", .Hulu, none, none, none, none,
        none, none, none, none, none, none⟩
      (by decide)
  · exact insert_duplicate_fails_keys_unique.2 DB.empty Reachable.empty

theorem encodeRank_rankId {e : MaybeRankedMedia} {r : RankRow}
    (h : encodeRank e = some r) : e.rankId = some r.rankId := by
  unfold encodeRank at h
  split at h
  · cases h
    assumption
  · exact absurd h (by simp)

theorem upsertRank_has_rankId (r : RankRow) (ranks : List RankRow) :
    (upsertRank r ranks).any (fun q => q.rankId == r.rankId) = true := by
  unfold upsertRank
  split
  · rename_i hany
    obtain ⟨q, hq, hbeq⟩ := List.any_eq_true.mp hany
    apply List.any_eq_true.mpr
    refine ⟨_, List.mem_map.mpr ⟨q, hq, rfl⟩, ?_⟩
    show ((if q.rankId == r.rankId then
      { q with score := r.score, lastUpdated := r.lastUpdated } else q).rankId
        == r.rankId) = true
    rw [if_pos hbeq]
    exact hbeq
  · apply List.any_eq_true.mpr
    exact ⟨r, List.mem_append.mpr (Or.inr (List.mem_singleton.mpr rfl)), by simp⟩

/-- Claim C10: a key that was archived and is no longer live does not block
re-insertion: inserting a fresh entry with that key (unranked, or with a rank
whose score satisfies the data model's `[0, 100]` bound of spec §3) succeeds,
the new entry joins the live set, and the archived copy stays in the
archive. -/
theorem reinsert_after_archive (db : DB) (e : MaybeRankedMedia)
    (harch : ∃ m ∈ db.deleted, keyMatches e.key m = true)
    (hnotlive : ¬ LiveKey e.key db)
    (hok : e.rankId = none ∨ ∃ r, encodeRank e = some r ∧ scoreValid r.score = true) :
    (insert e db).2 = true ∧
    (insert e db).1.media = db.media ++ [mediaRowOf e] ∧
    (insert e db).1.deleted = db.deleted ∧
    (∃ m ∈ (insert e db).1.deleted, keyMatches e.key m = true) := by
  have hany : db.media.any (keyMatches e.key) = false := by
    rw [List.any_eq_false]
    intro m hm hk
    exact hnotlive ⟨m, hm, hk⟩
  have hth : rankInsertThrows e = false := by
    rcases hok with hnone | ⟨r, hr, hs⟩
    · cases hence : encodeRank e with
      | none => simp [rankInsertThrows, hence]
      | some r' =>
        have hrid := encodeRank_rankId hence
        rw [hnone] at hrid
        cases hrid
    · simp [rankInsertThrows, hr, hs]
  have hfk : fkViolation e.rankId (ranksAfterUpsert e db.ranks) = false := by
    rcases hok with hnone | ⟨r, hr, _⟩
    · rw [hnone]
      rfl
    · rw [encodeRank_rankId hr]
      show (!((ranksAfterUpsert e db.ranks).any (fun q => q.rankId == r.rankId))) = false
      rw [ranksAfterUpsert]
      rw [hr]
      show (!((upsertRank r db.ranks).any (fun q => q.rankId == r.rankId))) = false
      rw [upsertRank_has_rankId]
      rfl
  rw [insert, if_neg (by simp [hth]), if_neg (by simp [hany]), if_neg (by simp [hfk])]
  exact ⟨rfl, rfl, rfl, harch⟩

/-- Witness for C10: with an archived "Suzume" snapshot and no live entry for
that key, inserting a fresh "Suzume" succeeds, the new row is live, and the
archived copy is still in the archive. -/
theorem reinsert_after_archive_witness :
    (insert
      ⟨"Suzume", .MOVIE, "https://hulu.example/new", .Hulu, none, none, none, none,
        none, none, none, none, none, none⟩
      ⟨[], [], [⟨"Suzume", .MOVIE, "https://hulu.example/old", .Hulu, none⟩]⟩).2 = true ∧
    (insert
      ⟨"Suzume", .MOVIE, "https://hulu.example/new", .Hulu, none, none, none, none,
        none, none, none, none, none, none⟩
      ⟨[], [], [⟨"Suzume", .MOVIE, "https://hulu.example/old", .Hulu, none⟩]⟩).1.media =
      [⟨"Suzume", .MOVIE, "https://hulu.example/new", .Hulu, none⟩] ∧
    (insert
      ⟨"Suzume", .MOVIE, "https://hulu.example/new", .Hulu, none, none, none, none,
        none, none, none, none, none, none⟩
      ⟨[], [], [⟨"Suzume", .MOVIE, "https://hulu.example/old", .Hulu, none⟩]⟩).1.deleted =
      [⟨"Suzume", .MOVIE, "https://hulu.example/old", .Hulu, none⟩] := by
  obtain ⟨h1, h2, h3, _⟩ := reinsert_after_archive
    ⟨[], [], [⟨"Suzume", .MOVIE, "https://hulu.example/old", .Hulu, none⟩]⟩
    ⟨"Suzume", .MOVIE, "https://hulu.example/new", .Hulu, none, none, none, none,
      none, none, none, none, none, none⟩
    (by decide) (by decide) (Or.inl rfl)
  exact ⟨h1, h2.trans rfl, h3.trans rfl⟩

/-- Claim C1 (code bug): with a live entry whose title contains a colon and an
empty fetch, `mediaDiff` reconstructs the `onlyInDatabase` key from
`key.split(":")` keeping only the first two fragments, so it returns the key
`(Hulu, "Pokemon")` instead of the live key
`(Hulu, "Pokemon: Arceus and The Jewel of Life")`: the union of `inBoth` and
`onlyInDatabase` does not equal the scoped store keys, contradicting the
claimed partition property. -/
theorem mediaDiff_truncates_colon_title :
    mediaDiff [] none
      ⟨[⟨"Pokemon: Arceus and The Jewel of Life", .MOVIE,
          "https://hulu.example/pokemon", .Hulu, none⟩], [], []⟩ =
      some ⟨[], [⟨.Hulu, "Pokemon"⟩], []⟩ ∧
    DB.liveKeys ⟨[⟨"Pokemon: Arceus and The Jewel of Life", .MOVIE,
        "https://hulu.example/pokemon", .Hulu, none⟩], [], []⟩ =
      [⟨.Hulu, "Pokemon: Arceus and The Jewel of Life"⟩] ∧
    ([⟨.Hulu, "Pokemon"⟩] : List MediaPrimaryKey) ≠
      [⟨.Hulu, "Pokemon: Arceus and The Jewel of Life"⟩] := by
  refine ⟨by decide, rfl, by decide⟩

end AnimeRanker
